import Mathlib

/-!
Verification development for the CLIProxyAPI request-translation core.

The development shallowly embeds two components of the repository:

* `internal/util/gemini_schema_optimized.go` — the JSON-Schema normalizer
  (`CleanJSONSchemaForAntigravityOptimized` and its helpers), modelled over an
  explicit JSON value tree `JVal`.  Go's `map[string]interface{}` is modelled
  as an association list with map-like `jget`/`jset`/`jdel` operations; Go's
  randomized map iteration is replaced by list order (the transformations the
  theorems below depend on are order-independent).  JSON numbers are modelled
  as integers: no claim depends on float formatting.  Marshaling is modelled
  per call: sonic's default configuration does not sort map keys and Go
  randomizes map iteration, so each call to `sonic.MarshalString` may emit
  object keys in a different order; the text-level normalizer therefore takes
  the marshal function of each call as a parameter, and `jserialize` (stored
  field order) and `jserializeRev` (reversed field order) are two concrete
  orders a real call can emit.

* `internal/translator/antigravity/claude/antigravity_claude_request_v2.go` —
  the typed-structure ("v2") request translator, which the specification
  designates as the canonical translation path.  The external collaborators
  (`cache.HasValidSignature`, `cache.GetCachedSignature`,
  `util.IsClaudeThinkingModel`, and the JSON text parser used for
  string-encoded payloads) are taken as parameters of the translation
  functions, so all theorems hold for every behavior of those collaborators
  unless they are instantiated concretely.
-/

/-- A JSON value: the shape of a parsed `interface{}` in the Go source. -/
inductive JVal where
  | null
  | bool (b : Bool)
  | num (n : Int)
  | str (s : String)
  | arr (items : List JVal)
  | obj (fields : List (String × JVal))
deriving Repr

/-- Splitting worker over character lists; `fuel` dominates the input length,
so the fuel-exhaustion branch is never reached from `strSplit`. -/
def strSplitGo : Nat → List Char → List Char → List Char → List String
  | 0, rest, _, acc => [String.mk (acc ++ rest)]
  | _+1, [], _, acc => [String.mk acc]
  | fuel+1, c :: cs, sep, acc =>
    if sep.isPrefixOf (c :: cs) then
      String.mk acc :: strSplitGo fuel (List.drop sep.length (c :: cs)) sep []
    else strSplitGo fuel cs sep (acc ++ [c])

/-- `strings.Split(s, sep)` for a non-empty separator (leftmost,
non-overlapping occurrences; `strSplit "" sep = [""]` as in Go). -/
def strSplit (s sep : String) : List String :=
  strSplitGo (s.data.length + 1) s.data sep.data []

/-- `strings.Contains(s, sub)` for non-empty `sub`: at least one split. -/
def strContains (s sub : String) : Bool :=
  1 < (strSplit s sub).length

/-- `strings.HasPre fix`-style test, over the character data. -/
def strStartsWith (s pre : String) : Bool :=
  pre.data.isPrefixOf s.data

/-- Association-list field store standing for Go's `map[string]interface{}`. -/
abbrev Fields := List (String × JVal)

/-- Map lookup: `node[key]`. -/
def jget : Fields → String → Option JVal
  | [], _ => none
  | (k, v) :: rest, key => if k == key then some v else jget rest key

/-- Map update: `node[key] = v` (replace the binding, else append). -/
def jset : Fields → String → JVal → Fields
  | [], key, v => [(key, v)]
  | (k, w) :: rest, key, v =>
    if k == key then (k, v) :: rest else (k, w) :: jset rest key v

/-- Map deletion: `delete(node, key)`. -/
def jdel : Fields → String → Fields
  | [], _ => []
  | (k, v) :: rest, key =>
    if k == key then jdel rest key else (k, v) :: jdel rest key

mutual
/-- `fmt.Sprint` of a decoded JSON value, as used for description hints.
Only the scalar cases are exercised by the claims; composite values follow
Go's bracketed rendering without the sorted-key refinement of `fmt`. -/
def goSprint : JVal → String
  | .null => "<nil>"
  | .bool b => if b then "true" else "false"
  | .num n => toString n
  | .str s => s
  | .arr items => "[" ++ goSprintItems items ++ "]"
  | .obj fields => "map[" ++ goSprintFields fields ++ "]"

def goSprintItems : List JVal → String
  | [] => ""
  | [v] => goSprint v
  | v :: rest => goSprint v ++ " " ++ goSprintItems rest

def goSprintFields : List (String × JVal) → String
  | [] => ""
  | [(k, v)] => k ++ ":" ++ goSprint v
  | (k, v) :: rest => k ++ ":" ++ goSprint v ++ " " ++ goSprintFields rest
end

mutual
/-- Nesting depth of a JSON value; used to size the traversal fuel. -/
def jdepth : JVal → Nat
  | .obj fields => 1 + jdepthFields fields
  | .arr items => 1 + jdepthItems items
  | _ => 0

def jdepthFields : List (String × JVal) → Nat
  | [] => 0
  | (_, v) :: rest => max (jdepth v) (jdepthFields rest)

def jdepthItems : List JVal → Nat
  | [] => 0
  | v :: rest => max (jdepth v) (jdepthItems rest)
end

/-- Insertion of a string into a sorted list (ascending). -/
def strInsertSorted (s : String) : List String → List String
  | [] => [s]
  | t :: rest => if s ≤ t then s :: t :: rest else t :: strInsertSorted s rest

/-- Insertion sort for strings, standing for Go's `sort.Strings`. -/
def strSort : List String → List String
  | [] => []
  | s :: rest => strInsertSorted s (strSort rest)

/-- Backslash and quote escaping over character data. -/
def jescape : List Char → List Char
  | [] => []
  | c :: rest =>
    if c == '\\' then '\\' :: '\\' :: jescape rest
    else if c == '"' then '\\' :: '"' :: jescape rest
    else c :: jescape rest

/-- Minimal JSON string quoting (backslash and quote escapes). -/
def jquote (s : String) : String :=
  "\"" ++ String.mk (jescape s.data) ++ "\""

mutual
/-- One possible behavior of `sonic.MarshalString`: object keys emitted in
the stored field order.  sonic's default configuration does not sort map
keys, and Go randomizes map iteration per call, so this is one order among
those a real call can emit; the per-call order is a parameter of the
text-level normalizer below. -/
def jserialize : JVal → String
  | .null => "null"
  | .bool b => if b then "true" else "false"
  | .num n => toString n
  | .str s => jquote s
  | .arr items => "[" ++ jserializeItems items ++ "]"
  | .obj fields => "\x7b" ++ jserializeFields fields ++ "\x7d"

def jserializeItems : List JVal → String
  | [] => ""
  | [v] => jserialize v
  | v :: rest => jserialize v ++ "," ++ jserializeItems rest

def jserializeFields : List (String × JVal) → String
  | [] => ""
  | [(k, v)] => jquote k ++ ":" ++ jserialize v
  | (k, v) :: rest => jquote k ++ ":" ++ jserialize v ++ "," ++ jserializeFields rest
end

mutual
/-- Another possible behavior of `sonic.MarshalString`: object keys emitted
in reversed stored order (array elements keep their order — Go slices are not
randomized).  Together with `jserialize` this witnesses that two calls can
emit the same value with different bytes. -/
def jserializeRev : JVal → String
  | .null => "null"
  | .bool b => if b then "true" else "false"
  | .num n => toString n
  | .str s => jquote s
  | .arr items => "[" ++ jserializeRevItems items ++ "]"
  | .obj fields => "\x7b" ++ jserializeRevFields fields ++ "\x7d"

def jserializeRevItems : List JVal → String
  | [] => ""
  | [v] => jserializeRev v
  | v :: rest => jserializeRev v ++ "," ++ jserializeRevItems rest

def jserializeRevFields : List (String × JVal) → String
  | [] => ""
  | [(k, v)] => jquote k ++ ":" ++ jserializeRev v
  | (k, v) :: rest => jserializeRevFields rest ++ "," ++ (jquote k ++ ":" ++ jserializeRev v)
end

namespace Util

/-- `cleanContext.nullableFields`: object path ↦ nullable property names,
kept in insertion order. -/
abbrev Ctx := List (String × List String)

/-- Record one nullable field under its owning object path
(`ctx.nullableFields[objectPath] = append(...)`). -/
def addNullableField : Ctx → String → String → Ctx
  | [], objectPath, fieldName => [(objectPath, [fieldName])]
  | (p, fs) :: rest, objectPath, fieldName =>
    if p == objectPath then (p, fs ++ [fieldName]) :: rest
    else (p, fs) :: addNullableField rest objectPath fieldName

/-- Scan of the dot-split path for the first `"properties"` segment that has a
successor: returns the path prefix before it and the following segment, as in
the recording loop of `handleTypeArrayInPlace`. -/
def findPropsSplit : List String → Option (List String × String)
  | [] => none
  | [_] => none
  | p :: next :: rest =>
    if p == "properties" then some ([], next)
    else
      match findPropsSplit (next :: rest) with
      | some (pre, fieldName) => some (p :: pre, fieldName)
      | none => none

/-- `buildPath` from the source: dot-joined traversal path. -/
def buildPath (parent key : String) : String :=
  if parent == "" then key else parent ++ "." ++ key

/-- `appendHintToNode`: append a parenthesized hint to `description`
(a non-string description reads as empty and is overwritten). -/
def appendHintToNode (node : Fields) (hint : String) : Fields :=
  let existing := match jget node "description" with
    | some (.str s) => s
    | _ => ""
  if existing != "" then jset node "description" (.str (existing ++ " (" ++ hint ++ ")"))
  else jset node "description" (.str hint)

/-- The scalar-valued keywords demoted to description hints (step 5). -/
def unsupportedKeys : List String :=
  ["minLength", "maxLength", "exclusiveMinimum", "exclusiveMaximum",
   "pattern", "minItems", "maxItems", "format", "default", "examples"]

/-- One step of the unsupported-keyword demotion: object- or array-valued
instances are left untouched. -/
def demoteUnsupportedKey (node : Fields) (key : String) : Fields :=
  match jget node key with
  | some v =>
    match v with
    | .obj _ => node
    | .arr _ => node
    | _ => jdel (appendHintToNode node (key ++ ": " ++ goSprint v)) key
  | none => node

/-- `mergeAllOfInPlace`: union member `properties` and `required` into the
parent.  The source type-asserts `parent["properties"]` to a map after
ensuring presence, which panics on a non-map value; that (crashing) case is
modelled as leaving the node unchanged. -/
def mergeAllOfInPlace (parent : Fields) (allOf : List JVal) : Fields :=
  let parent1 := if (jget parent "properties").isSome then parent
                 else jset parent "properties" (.obj [])
  match jget parent1 "properties" with
  | some (.obj props0) =>
    let req0 : List String := match jget parent1 "required" with
      | some (.arr rs) => rs.filterMap (fun r => match r with | .str s => some s | _ => none)
      | _ => []
    let merged := allOf.foldl (fun (acc : Fields × List String) item =>
      match item with
      | .obj itemFields =>
        let ps := match jget itemFields "properties" with
          | some (.obj ip) => ip.foldl (fun a kv => jset a kv.1 kv.2) acc.1
          | _ => acc.1
        let rq := match jget itemFields "required" with
          | some (.arr irs) => irs.foldl (fun a r =>
              match r with
              | .str s => if a.contains s then a else a ++ [s]
              | _ => a) acc.2
          | _ => acc.2
        (ps, rq)
      | _ => acc) (props0, req0)
    let parent2 := jset parent1 "properties" (.obj merged.1)
    if merged.2.length > 0 then jset parent2 "required" (.arr (merged.2.map JVal.str))
    else parent2
  | _ => parent1

/-- `selectBestSchema`: pick the best union member (object > array > other
typed > null, first seen wins ties) and collect the distinct member types. -/
def selectBestSchema (items : List JVal) : Nat × List String :=
  let result := items.foldl (fun (acc : Int × Nat × List String × Nat) item =>
    match acc, item with
    | (bestScore, bestIdx, types, i), .obj itemFields =>
      let t0 : String := match jget itemFields "type" with
        | some (.str s) => s
        | _ => ""
      let hasProps : Bool := match jget itemFields "properties" with
        | some .null => false
        | some _ => true
        | none => false
      let hasItems : Bool := match jget itemFields "items" with
        | some .null => false
        | some _ => true
        | none => false
      let scored : Int × String :=
        if t0 == "object" || hasProps then (3, if t0 == "" then "object" else t0)
        else if t0 == "array" || hasItems then (2, if t0 == "" then "array" else t0)
        else if t0 != "" && t0 != "null" then (1, t0)
        else (0, if t0 == "" then "null" else t0)
      let types1 := if scored.2 != "" && !(types.contains scored.2) then types ++ [scored.2]
                    else types
      if scored.1 > bestScore then (scored.1, i, types1, i + 1)
      else (bestScore, bestIdx, types1, i + 1)
    | (bestScore, bestIdx, types, i), _ => (bestScore, bestIdx, types, i + 1))
    (-1, 0, [], 0)
  (result.2.1, result.2.2.1)

/-- `flattenUnionInPlace`: merge the selected union member into the parent,
special-casing `description`, then hint the full type spread. -/
def flattenUnionInPlace (parent : Fields) (arr : List JVal) : Fields :=
  if arr.isEmpty then parent
  else
    let parentDesc : String := match jget parent "description" with
      | some (.str s) => s
      | _ => ""
    let selected := selectBestSchema arr
    let bestIdx := if selected.1 ≥ arr.length then 0 else selected.1
    match arr.get? bestIdx with
    | some (.obj best) =>
      let parent1 := best.foldl (fun f kv =>
        if kv.1 == "description" then
          match kv.2 with
          | .str childDesc =>
            if parentDesc != "" && childDesc != "" && childDesc != parentDesc then
              jset f "description" (.str (parentDesc ++ " (" ++ childDesc ++ ")"))
            else if childDesc != "" then jset f "description" (.str childDesc)
            else f
          | _ => f
        else jset f kv.1 kv.2) parent
      if selected.2.length > 1 then
        appendHintToNode parent1 ("Accepts: " ++ String.intercalate " | " selected.2)
      else parent1
    | _ => parent

/-- One step of the anyOf/oneOf pass: flatten and drop the keyword only when
it is a non-empty array. -/
def flattenUnionStep (node : Fields) (key : String) : Fields :=
  match jget node key with
  | some (.arr arr) => if arr.length > 0 then jdel (flattenUnionInPlace node arr) key else node
  | _ => node

/-- `handleTypeArrayInPlace`: collapse a `type` array to its first non-null
member, hint multiplicity, and on a nullable member under a `.properties.`
path record the (first-`properties`) owner and field for later `required`
stripping. -/
def handleTypeArrayInPlace (node : Fields) (typeArr : List JVal) (path : String) (ctx : Ctx) :
    Fields × Ctx :=
  let nonNullTypes := typeArr.filterMap (fun t =>
    match t with
    | .str s => if s == "null" || s == "" then none else some s
    | _ => none)
  let hasNull := typeArr.any (fun t =>
    match t with
    | .str s => s == "null"
    | _ => false)
  let firstType := nonNullTypes.headD "string"
  let node1 := jset node "type" (.str firstType)
  let node2 :=
    if nonNullTypes.length > 1 then
      appendHintToNode node1 ("Accepts: " ++ String.intercalate " | " nonNullTypes)
    else node1
  if hasNull && strContains path ".properties." then
    let node3 := appendHintToNode node2 "(nullable)"
    let ctx1 := match findPropsSplit (strSplit path ".") with
      | some (pre, fieldName) => addNullableField ctx (String.intercalate "." pre) fieldName
      | none => ctx
    (node3, ctx1)
  else (node2, ctx)

/-- The synthetic `reason` placeholder property. -/
def reasonPlaceholder : JVal :=
  .obj [("type", .str "string"),
        ("description", .str "Brief explanation of why you are calling this tool")]

/-- `handleEmptyObjectSchema`: inject placeholder properties into empty or
required-less object schemas (the root is exempt from the `_` placeholder). -/
def handleEmptyObjectSchema (node : Fields) (path : String) : Fields :=
  let propsOpt : Option Fields := match jget node "properties" with
    | some (.obj p) => some p
    | _ => none
  let reqOpt : Option (List JVal) := match jget node "required" with
    | some (.arr r) => some r
    | _ => none
  match propsOpt with
  | none =>
    let node1 := jset node "properties" (.obj [("reason", reasonPlaceholder)])
    jset node1 "required" (.arr [.str "reason"])
  | some props =>
    if props.isEmpty then
      let node1 := jset node "properties" (.obj [("reason", reasonPlaceholder)])
      jset node1 "required" (.arr [.str "reason"])
    else
      let hasRequired : Bool := match reqOpt with
        | some r => !r.isEmpty
        | none => false
      if !hasRequired && path != "" then
        let props1 := if (jget props "_").isSome then props
                      else jset props "_" (.obj [("type", .str "boolean")])
        jset (jset node "properties" (.obj props1)) "required" (.arr [.str "_"])
      else node

/-- `cleanupRequiredInPlace`: keep only required names that are string keys of
`properties`; drop `required` if nothing survives.  Skipped entirely when
either `required` is not an array or `properties` is not a map. -/
def cleanupRequiredInPlace (node : Fields) : Fields :=
  match jget node "required", jget node "properties" with
  | some (.arr reqArr), some (.obj props) =>
    let valid := reqArr.filter (fun r =>
      match r with
      | .str s => (jget props s).isSome
      | _ => false)
    if valid.length != reqArr.length then
      if valid.isEmpty then jdel node "required" else jset node "required" (.arr valid)
    else node
  | _, _ => node

/-- The keywords removed unconditionally in step 11. -/
def removeKeys : List String :=
  ["$schema", "$defs", "definitions", "$ref", "$id", "propertyNames",
   "patternProperties", "enumTitles", "prefill"]

/-- Steps 2–11 of `processObjectNode` (after the `$ref` short-circuit). -/
def processObjectNodeRest (fields0 : Fields) (path : String) (ctx : Ctx) : Fields × Ctx :=
  -- 2. const -> enum
  let fields1 := match jget fields0 "const" with
    | some c =>
      let f := if (jget fields0 "enum").isSome then fields0
               else jset fields0 "enum" (.arr [c])
      jdel f "const"
    | none => fields0
  -- 3. stringify enum values, hint small enums
  let fields2 := match jget fields1 "enum" with
    | some (.arr enumVal) =>
      let stringEnum := enumVal.map (fun v => JVal.str (goSprint v))
      let f := jset fields1 "enum" (.arr stringEnum)
      if 1 < stringEnum.length && stringEnum.length ≤ 10 then
        appendHintToNode f ("Allowed: " ++ String.intercalate ", " (stringEnum.map goSprint))
      else f
    | _ => fields1
  -- 4. additionalProperties
  let fields3 := match jget fields2 "additionalProperties" with
    | some v =>
      let f := match v with
        | .bool false => appendHintToNode fields2 "No extra properties allowed"
        | _ => fields2
      jdel f "additionalProperties"
    | none => fields2
  -- 5. demote unsupported scalar keywords
  let fields4 := unsupportedKeys.foldl demoteUnsupportedKey fields3
  -- 6. allOf merge
  let fields5 := match jget fields4 "allOf" with
    | some (.arr allOf) => jdel (mergeAllOfInPlace fields4 allOf) "allOf"
    | _ => fields4
  -- 7. anyOf/oneOf flatten
  let fields6 := ["anyOf", "oneOf"].foldl flattenUnionStep fields5
  -- 8. type-array flattening
  let step8 := match jget fields6 "type" with
    | some (.arr typeVal) =>
      if typeVal.length > 0 then handleTypeArrayInPlace fields6 typeVal path ctx
      else (fields6, ctx)
    | _ => (fields6, ctx)
  -- 9. empty-object placeholder
  let fields8 := match jget step8.1 "type" with
    | some (.str t) => if t == "object" then handleEmptyObjectSchema step8.1 path else step8.1
    | _ => step8.1
  -- 10. required cleanup
  let fields9 := cleanupRequiredInPlace fields8
  -- 11. unconditional keyword removal
  (removeKeys.foldl jdel fields9, step8.2)

/-- `processObjectNode`: the `$ref` short-circuit replaces the whole node and
skips every later rule; otherwise steps 2–11 run in order. -/
def processObjectNode (fields : Fields) (path : String) (ctx : Ctx) : Fields × Ctx :=
  match jget fields "$ref" with
  | some (.str refVal) =>
    let defName := (strSplit refVal "/").getLastD refVal
    let hint0 := "See: " ++ defName
    let hint := match jget fields "description" with
      | some (.str existing) =>
        if existing != "" then existing ++ " (" ++ hint0 ++ ")" else hint0
      | _ => hint0
    ([("type", .str "object"), ("description", .str hint)], ctx)
  | _ => processObjectNodeRest fields path ctx

/-- Child traversal over the (already processed) field list. -/
def cleanGoFieldsWith (clean1 : JVal → String → Ctx → JVal × Ctx) (path : String) :
    Fields → Ctx → Fields × Ctx
  | [], ctx => ([], ctx)
  | (k, v) :: rest, ctx =>
    let cleaned := clean1 v (buildPath path k) ctx
    let restRes := cleanGoFieldsWith clean1 path rest cleaned.2
    ((k, cleaned.1) :: restRes.1, restRes.2)

/-- Child traversal over array items (paths use the `parent[i]` format). -/
def cleanGoItemsWith (clean1 : JVal → String → Ctx → JVal × Ctx) (path : String) :
    Nat → List JVal → Ctx → List JVal × Ctx
  | _, [], ctx => ([], ctx)
  | i, v :: rest, ctx =>
    let cleaned := clean1 v (path ++ "[" ++ toString i ++ "]") ctx
    let restRes := cleanGoItemsWith clean1 path (i + 1) rest cleaned.2
    (cleaned.1 :: restRes.1, restRes.2)

/-- `cleanSchemaRecursive`: process a node, then recurse into the children of
the processed node.  The fuel argument only bounds the recursion depth; the
top-level entry point supplies more fuel than any reachable node needs. -/
def cleanGo : Nat → JVal → String → Ctx → JVal × Ctx
  | 0, node, _, ctx => (node, ctx)
  | fuel+1, node, path, ctx =>
    match node with
    | .obj fields =>
      let processed := processObjectNode fields path ctx
      let walked := cleanGoFieldsWith (fun v p c => cleanGo fuel v p c) path processed.1 processed.2
      (.obj walked.1, walked.2)
    | .arr items =>
      let walked := cleanGoItemsWith (fun v p c => cleanGo fuel v p c) path 0 items ctx
      (.arr walked.1, walked.2)
    | other => (other, ctx)

/-- Strip the recorded nullable fields from one object's `required` list,
dropping the list when it empties (`applyNullableFields` body). -/
def removeFieldsFromRequired (fields : Fields) (names : List String) : Fields :=
  match jget fields "required" with
  | some (.arr reqArr) =>
    let filtered := reqArr.filter (fun r =>
      match r with
      | .str s => !(names.contains s)
      | _ => false)
    if filtered.isEmpty then jdel fields "required"
    else jset fields "required" (.arr filtered)
  | _ => fields

/-- `navigateToPath` + in-place mutation, as a path-indexed update.  Empty
path segments are skipped; a failed lookup leaves the tree unchanged. -/
def updateAtParts : Fields → List String → (Fields → Fields) → Fields
  | fields, [], f => f fields
  | fields, part :: rest, f =>
    if part == "" then updateAtParts fields rest f
    else
      match jget fields part with
      | some (.obj inner) => jset fields part (.obj (updateAtParts inner rest f))
      | _ => fields

/-- `applyNullableFields`: for every recorded (path, fields) entry, filter the
`required` list of the object at that path. -/
def applyNullableFields (fields : Fields) (ctx : Ctx) : Fields :=
  ctx.foldl (fun fs entry =>
    updateAtParts fs (strSplit entry.1 ".") (fun inner => removeFieldsFromRequired inner entry.2))
    fields

/-- The value-level normalization: single traversal, then nullable-field
post-processing on a map root. -/
def cleanSchemaValue (schema : JVal) : JVal :=
  let walked := cleanGo (jdepth schema + 4) schema "" []
  match walked.1 with
  | .obj fields => .obj (applyNullableFields fields walked.2)
  | other => other

/-- The pure text-level result of one call: parse (fail-open), normalize,
marshal.  The parser stands for `sonic.UnmarshalString`; `marshal` is that
call's `sonic.MarshalString` under whatever map key order the call's
randomized iteration produces. -/
def computeCleanResult (parse : String → Option JVal) (marshal : JVal → String)
    (jsonStr : String) : String :=
  match parse jsonStr with
  | none => jsonStr
  | some t => marshal (cleanSchemaValue t)

/-- The process-wide schema cache, keyed by content hash. -/
abbrev SchemaCacheM := List (String × String)

/-- SHA-256 content hashing modelled as an injective keying function. -/
def computeHash (s : String) : String := s

/-- `SchemaCache.Get`. -/
def cacheGet : SchemaCacheM → String → Option String
  | [], _ => none
  | (k, v) :: rest, key => if k == key then some v else cacheGet rest key

/-- `maxSize` of the global schema cache. -/
def schemaCacheMaxSize : Nat := 1000

/-- `evictHalf`: drop the first half of the sorted key list. -/
def evictHalf (c : SchemaCacheM) : SchemaCacheM :=
  let keys := strSort (c.map (fun kv => kv.1))
  let toRemove := keys.take (keys.length / 2)
  c.filter (fun kv => !(toRemove.contains kv.1))

/-- Entry update for the cache store. -/
def cacheStore : SchemaCacheM → String → String → SchemaCacheM
  | [], key, v => [(key, v)]
  | (k, w) :: rest, key, v =>
    if k == key then (k, v) :: rest else (k, w) :: cacheStore rest key v

/-- `SchemaCache.Set`: evict on overflow, then store. -/
def cacheSet (c : SchemaCacheM) (key v : String) : SchemaCacheM :=
  let c1 := if c.length ≥ schemaCacheMaxSize then evictHalf c else c
  cacheStore c1 key v

/-- `CleanJSONSchemaForAntigravityOptimized`: cache lookup by content hash,
fail-open parse, normalize, marshal, store.  `marshal` is this call's
`sonic.MarshalString` under the map key order its randomized iteration
produces; different calls may be passed different marshal behaviors.
Returns the result paired with the updated cache state. -/
def cleanJSONSchemaForAntigravityOptimized (parse : String → Option JVal)
    (marshal : JVal → String) (c : SchemaCacheM) (jsonStr : String) :
    String × SchemaCacheM :=
  let hash := computeHash jsonStr
  match cacheGet c hash with
  | some cached => (cached, c)
  | none =>
    match parse jsonStr with
    | none => (jsonStr, c)
    | some t =>
      let result := marshal (cleanSchemaValue t)
      (result, cacheSet c hash result)

/-- `ClearSchemaCache`. -/
def clearSchemaCache (_ : SchemaCacheM) : SchemaCacheM := []

end Util

namespace Claude

open Util (computeCleanResult)

/-- The external collaborators of the translator, per the interface contracts:
the signature cache operations, the thinking-model classifier and the JSON
text parser used for string-encoded tool inputs. -/
structure TransEnv where
  hasValidSignature : String → String → Bool
  getCachedSignature : String → String → String
  isClaudeThinkingModel : String → Bool
  parseJson : String → Option JVal

/-- `ClaudeThinking` (a missing `type` decodes to `""`). -/
structure ClaudeThinking where
  type : String := ""
  budget_tokens : Option Int := none

/-- `ImageSource`. -/
structure ImageSource where
  type : String := ""
  media_type : String := ""
  data : String := ""

/-- `ClaudeContentItem`.  The two raw-message fields are modelled as the JSON
value they hold (`none` when the field is absent, i.e. zero-length raw). -/
structure ClaudeContentItem where
  type : String := ""
  text : String := ""
  signature : String := ""
  thinking : String := ""
  name : String := ""
  id : String := ""
  input : Option JVal := none
  tool_use_id : String := ""
  content : Option JVal := none
  source : Option ImageSource := none

/-- The decode outcome of a message `content` raw field: an array of content
items, a plain string, or neither (in which case the message emits nothing). -/
inductive ClaudeMessageContent where
  | items (blocks : List ClaudeContentItem)
  | plain (s : String)
  | invalid

/-- `ClaudeMessage`. -/
structure ClaudeMessage where
  role : String := ""
  content : ClaudeMessageContent := .invalid

/-- `ClaudeTool` (`input_schema` is `none` for a zero-length raw schema). -/
structure ClaudeTool where
  name : String := ""
  description : String := ""
  input_schema : Option String := none
  behavior : String := ""

/-- `ClaudeSystemItem`. -/
structure ClaudeSystemItem where
  type : String := ""
  text : String := ""

/-- The decode outcome of the `system` raw field. -/
inductive ClaudeSystemContent where
  | items (l : List ClaudeSystemItem)
  | plain (s : String)
  | other

/-- `ClaudeRequest`.  The numeric sampling parameters are carried as opaque
integers: no claim observes their values, only their presence. -/
structure ClaudeRequest where
  model : String := ""
  system : Option ClaudeSystemContent := none
  messages : List ClaudeMessage := []
  tools : List ClaudeTool := []
  thinking : Option ClaudeThinking := none
  temperature : Option Int := none
  top_p : Option Int := none
  top_k : Option Int := none
  max_tokens : Option Int := none
  metadata_user_id : Option String := none

/-- `FunctionCall`. -/
structure FunctionCall where
  id : String := ""
  name : String := ""
  args : JVal := .null

/-- `FunctionResponse`. -/
structure FunctionResponse where
  id : String := ""
  name : String := ""
  response : Fields := []

/-- `InlineData`. -/
structure InlineData where
  mimeType : String := ""
  data : String := ""

/-- An output `Part` (untouched optional fields keep their zero values, as
with `omitempty` marshaling). -/
structure Part where
  text : String := ""
  thought : Option Bool := none
  thoughtSignature : String := ""
  functionCall : Option FunctionCall := none
  functionResponse : Option FunctionResponse := none
  inlineData : Option InlineData := none

/-- `ContentItem` of the output. -/
structure ContentItem where
  role : String := ""
  parts : List Part := []

/-- `FunctionDeclaration` (only the fields the v2 path populates). -/
structure FunctionDeclaration where
  name : String := ""
  description : String := ""
  behavior : String := ""
  parametersJsonSchema : String := ""

/-- `ToolDeclaration`. -/
structure ToolDeclaration where
  functionDeclarations : List FunctionDeclaration := []

/-- `ThinkingConfig`.  The v2 path also writes a `ThinkingLevel` field, whose
declaration lives outside the provided sources; it is included as written by
the v2 translator. -/
structure ThinkingConfig where
  thinkingBudget : Option Int := none
  thinkingLevel : String := ""
  includeThoughts : Bool := false

/-- `GenerationConfig`. -/
structure GenerationConfig where
  temperature : Option Int := none
  topP : Option Int := none
  topK : Option Int := none
  maxOutputTokens : Option Int := none
  thinkingConfig : Option ThinkingConfig := none

/-- `RequestContent` (safety settings are attached by an external collaborator
after serialization and are out of scope). -/
structure RequestContent where
  systemInstruction : Option ContentItem := none
  contents : List ContentItem := []
  tools : List ToolDeclaration := []
  generationConfig : Option GenerationConfig := none

/-- `AntigravityRequest`. -/
structure AntigravityRequest where
  model : String := ""
  request : RequestContent := {}

/-- `strings.SplitN(s, "#", 2)`: the first split when the separator occurs. -/
def splitOnce (s sep : String) : Option (String × String) :=
  match strSplit s sep with
  | [] => none
  | [_] => none
  | a :: rest => some (a, String.intercalate sep rest)

/-- `processThinkingContentV2`: resolve a signature (cache first, then a
`model#token` client signature), dropping the block and clearing the
thought-translation flag when nothing validates.  Returns
(part, signature, skip, updated flag). -/
def processThinkingContentV2 (env : TransEnv) (ci : ClaudeContentItem)
    (modelName : String) (enableThoughtTranslate : Bool) :
    Option Part × String × Bool × Bool :=
  let thinkingText := if ci.thinking != "" then ci.thinking else ci.text
  let sig0 := if thinkingText != "" then env.getCachedSignature modelName thinkingText else ""
  let signature :=
    if sig0 == "" && ci.signature != "" then
      match splitOnce ci.signature "#" with
      | some (m, clientSignature) =>
        if modelName == m && env.hasValidSignature modelName clientSignature then
          clientSignature
        else sig0
      | none => sig0
    else sig0
  if !(env.hasValidSignature modelName signature) then
    (none, "", true, false)
  else
    (some { text := thinkingText, thought := some true, thoughtSignature := signature },
     signature, false, enableThoughtTranslate)

/-- The sentinel written when no validated thinking signature is available. -/
def skipSentinel : String := "skip_thought_signature_validator"

/-- `processToolUseContentV2`: emit a function call for an input that
unmarshals into a Go map.  Unmarshaling JSON `null` into a map succeeds as a
no-op, so `null` (directly, or inside a string payload) passes the check; a
string payload is parsed and re-marshalled.  Note the `""` model passed to
the validity check, as in the source. -/
def processToolUseContentV2 (env : TransEnv) (ci : ClaudeContentItem)
    (currentMessageThinkingSignature : String) : Option Part :=
  match ci.input with
  | none => none
  | some raw =>
    let mkPart (args : JVal) : Option Part :=
      let thoughtSig := if env.hasValidSignature "" currentMessageThinkingSignature then
          currentMessageThinkingSignature
        else skipSentinel
      some { thoughtSignature := thoughtSig,
             functionCall := some { id := ci.id, name := ci.name, args := args } }
    match raw with
    | .obj _ => mkPart raw
    | .null => mkPart raw
    | .str s =>
      match env.parseJson s with
      | some (.obj fieldsParsed) => mkPart (.obj fieldsParsed)
      | some .null => mkPart .null
      | _ => none
    | _ => none

/-- `processToolResultContentV2`: derive the function name from the tool-use
id and wrap the content as a `result` entry (Go's unmarshal of JSON `null`
into a string succeeds as a no-op, leaving the empty string). -/
def processToolResultContentV2 (ci : ClaudeContentItem) : Option Part :=
  if ci.tool_use_id == "" then none
  else
    let toolCallIDs := strSplit ci.tool_use_id "-"
    let funcName :=
      if toolCallIDs.length > 1 then
        String.intercalate "-" (toolCallIDs.take (toolCallIDs.length - 2))
      else ci.tool_use_id
    let response : Fields :=
      match ci.content with
      | none => []
      | some raw =>
        match raw with
        | .str s => [("result", .str s)]
        | .null => [("result", .str "")]
        | .arr items =>
          match items with
          | [only] => [("result", only)]
          | _ => [("result", .arr items)]
        | other => [("result", other)]
    some { functionResponse := some { id := ci.tool_use_id, name := funcName, response := response } }

/-- `processImageContentV2`: only base64 sources produce a part. -/
def processImageContentV2 (ci : ClaudeContentItem) : Option Part :=
  match ci.source with
  | some src =>
    if src.type == "base64" then
      some { inlineData := some { mimeType := src.media_type, data := src.data } }
    else none
  | none => none

/-- One dispatch of the content-block loop body: the emitted part (tagged
with whether it came from a thinking block), plus the updated current message
thinking signature and thought-translation flag. -/
def blockResult (env : TransEnv) (modelName : String) (curSig : String)
    (enableThoughtTranslate : Bool) (ci : ClaudeContentItem) :
    Option (Part × Bool) × String × Bool :=
  match ci.type with
  | "thinking" =>
    let r := processThinkingContentV2 env ci modelName enableThoughtTranslate
    if r.2.2.1 then (none, curSig, r.2.2.2)
    else
      let curSig1 := if env.hasValidSignature modelName r.2.1 then r.2.1 else curSig
      (r.1.map (fun p => (p, true)), curSig1, r.2.2.2)
  | "text" => (some ({ text := ci.text }, false), curSig, enableThoughtTranslate)
  | "tool_use" =>
    ((processToolUseContentV2 env ci curSig).map (fun p => (p, false)), curSig,
     enableThoughtTranslate)
  | "tool_result" =>
    ((processToolResultContentV2 ci).map (fun p => (p, false)), curSig, enableThoughtTranslate)
  | "image" =>
    ((processImageContentV2 ci).map (fun p => (p, false)), curSig, enableThoughtTranslate)
  | _ => (none, curSig, enableThoughtTranslate)

/-- The loop state of one message: the current thinking signature, the
thought-translation flag and the three part buffers of the source loop. -/
structure LoopState where
  curSig : String := ""
  enable : Bool := true
  thinkingParts : List Part := []
  otherParts : List Part := []
  clientParts : List Part := []

/-- One iteration of the content loop: model-role parts are buffered by kind,
other roles append in encounter order. -/
def processContentItem (env : TransEnv) (modelName role : String)
    (st : LoopState) (ci : ClaudeContentItem) : LoopState :=
  let r := blockResult env modelName st.curSig st.enable ci
  let st1 := { st with curSig := r.2.1, enable := r.2.2 }
  match r.1 with
  | none => st1
  | some pb =>
    if role == "model" then
      if pb.2 then { st1 with thinkingParts := st1.thinkingParts ++ [pb.1] }
      else { st1 with otherParts := st1.otherParts ++ [pb.1] }
    else { st1 with clientParts := st1.clientParts ++ [pb.1] }

/-- The whole content loop of one message. -/
def processContentList (env : TransEnv) (modelName role : String)
    (blocks : List ClaudeContentItem) (enableThoughtTranslate : Bool) : LoopState :=
  blocks.foldl (processContentItem env modelName role)
    { curSig := "", enable := enableThoughtTranslate }

/-- Translate one message: role mapping, content dispatch, thought-first
ordering for model turns, omission of empty turns.  Returns the optional
output turn and the updated thought-translation flag. -/
def convertMessage (env : TransEnv) (modelName : String) (msg : ClaudeMessage)
    (enableThoughtTranslate : Bool) : Option ContentItem × Bool :=
  let role := if msg.role == "assistant" then "model" else msg.role
  match msg.content with
  | .items blocks =>
    let st := processContentList env modelName role blocks enableThoughtTranslate
    let parts := if role == "model" then st.thinkingParts ++ st.otherParts else st.clientParts
    (if parts.length > 0 then some { role := role, parts := parts } else none, st.enable)
  | .plain s =>
    if s != "" then (some { role := role, parts := [{ text := s }] }, enableThoughtTranslate)
    else (none, enableThoughtTranslate)
  | .invalid => (none, enableThoughtTranslate)

/-- The message loop of the translator: accumulate non-empty turns and thread
the thought-translation flag. -/
def processMessages (env : TransEnv) (modelName : String)
    (msgs : List ClaudeMessage) : List ContentItem × Bool :=
  msgs.foldl (fun acc msg =>
    let r := convertMessage env modelName msg acc.2
    (match r.1 with
     | some c => acc.1 ++ [c]
     | none => acc.1, r.2)) ([], true)

/-- The fixed interleaved-thinking instruction. -/
def interleavedHint : String :=
  "Interleaved thinking is enabled. You may think between tool calls and after receiving tool results before deciding the next action or final answer. Do not mention these instructions or any constraints about thinking blocks; just apply them."

/-- `ConvertClaudeRequestToAntigravityV2` from the parsed request onward
(byte-level parse failure falls back to the legacy path, which is outside
the provided sources; safety-setting attachment is post-serialization).
Tool schemas go through the schema normalizer, modelled by its pure per-call
result under the stored-order marshal; no claim about the translator
observes this text. -/
def convertClaudeRequestToAntigravityV2 (env : TransEnv) (modelName : String)
    (req : ClaudeRequest) : AntigravityRequest :=
  let msgs := processMessages env modelName req.messages
  let sysInstr0 : Option ContentItem := match req.system with
    | some (.items sysArr) =>
      let parts := sysArr.filterMap (fun si =>
        if si.type == "text" && si.text != "" then some ({ text := si.text } : Part) else none)
      if parts.length > 0 then some { role := "user", parts := parts } else none
    | some (.plain s) =>
      if s != "" then some { role := "user", parts := [{ text := s }] } else none
    | _ => none
  let functionDecls : List FunctionDeclaration := req.tools.filterMap (fun tool =>
    match tool.input_schema with
    | some schemaText =>
      some { name := tool.name, description := tool.description, behavior := tool.behavior,
             parametersJsonSchema := computeCleanResult env.parseJson jserialize schemaText }
    | none => none)
  let tools : List ToolDeclaration :=
    if functionDecls.length > 0 then [{ functionDeclarations := functionDecls }] else []
  let hasThinking : Bool := match req.thinking with
    | some th => th.type == "enabled" || th.type == "adaptive"
    | none => false
  let sysInstr :=
    if functionDecls.length > 0 && hasThinking && env.isClaudeThinkingModel modelName then
      match sysInstr0 with
      | some s => some { s with parts := s.parts ++ [{ text := interleavedHint }] }
      | none => some ({ role := "user", parts := [{ text := interleavedHint }] } : ContentItem)
    else sysInstr0
  let thinkingCfg : Option ThinkingConfig := match req.thinking with
    | some th =>
      if msgs.2 && th.type == "enabled" then
        match th.budget_tokens with
        | some budget =>
          some { thinkingBudget := some budget, includeThoughts := budget != 0 }
        | none => none
      else if msgs.2 && th.type == "adaptive" then
        some { thinkingLevel := "high", includeThoughts := true }
      else none
    | none => none
  let hasGenConfig := thinkingCfg.isSome || req.temperature.isSome || req.top_p.isSome
      || req.top_k.isSome || req.max_tokens.isSome
  let genConfig : Option GenerationConfig :=
    if hasGenConfig then
      some { temperature := req.temperature, topP := req.top_p, topK := req.top_k,
             maxOutputTokens := req.max_tokens, thinkingConfig := thinkingCfg }
    else none
  { model := modelName,
    request := { systemInstruction := sysInstr, contents := msgs.1, tools := tools,
                 generationConfig := genConfig } }

/-- The thinking configuration reachable in a translator output. -/
def outputThinkingConfig (out : AntigravityRequest) : Option ThinkingConfig :=
  out.request.generationConfig.bind (fun gc => gc.thinkingConfig)

end Claude

namespace Claude

/-- One step of the chronological (single-list) emission semantics: the same
block dispatch as the source loop, but parts are appended in encounter order,
tagged with whether they came from a thinking block. -/
def chronStep (env : TransEnv) (modelName : String)
    (acc : String × Bool × List (Part × Bool)) (ci : ClaudeContentItem) :
    String × Bool × List (Part × Bool) :=
  let r := blockResult env modelName acc.1 acc.2.1 ci
  (r.2.1, r.2.2,
   match r.1 with
   | some pb => acc.2.2 ++ [pb]
   | none => acc.2.2)

/-- The parts a message's content blocks emit, in encounter order, each
tagged with its thinking-block origin. -/
def chronParts (env : TransEnv) (modelName : String) (blocks : List ClaudeContentItem)
    (enableThoughtTranslate : Bool) : List (Part × Bool) :=
  (blocks.foldl (chronStep env modelName) ("", enableThoughtTranslate, [])).2.2

/-- The thought parts of a tagged emission, in order. -/
def thoughtSeq (l : List (Part × Bool)) : List Part :=
  (l.filter (fun pb => pb.2)).map (fun pb => pb.1)

/-- The non-thought parts of a tagged emission, in order. -/
def otherSeq (l : List (Part × Bool)) : List Part :=
  (l.filter (fun pb => !pb.2)).map (fun pb => pb.1)

/-- The input payloads the amended tool-use claim rejects: absent, or neither
a JSON object nor JSON `null` nor a string parsing to an object or `null`. -/
def toolUseInputRejected (parse : String → Option JVal) : Option JVal → Bool
  | none => true
  | some (.obj _) => false
  | some .null => false
  | some (.str s) =>
    match parse s with
    | some (.obj _) => false
    | some .null => false
    | _ => true
  | some _ => true

/-- A collaborator environment whose signature cache validates everything and
returns a cached signature derived from the thinking text. -/
def envAllValid : TransEnv :=
  { hasValidSignature := fun _ _ => true,
    getCachedSignature := fun _ t => "S" ++ t,
    isClaudeThinkingModel := fun _ => false,
    parseJson := fun _ => none }

/-- A collaborator environment that validates nothing. -/
def envNoneValid : TransEnv :=
  { hasValidSignature := fun _ _ => false,
    getCachedSignature := fun _ _ => "",
    isClaudeThinkingModel := fun _ => false,
    parseJson := fun _ => none }

/-- Interleaved blocks of an assistant message: text, thinking, text. -/
def blocksInterleaved : List ClaudeContentItem :=
  [{ type := "text", text := "a" },
   { type := "thinking", thinking := "th" },
   { type := "text", text := "b" }]

/-- The assistant message holding `blocksInterleaved`. -/
def msgInterleaved : ClaudeMessage :=
  { role := "assistant", content := .items blocksInterleaved }

/-- The turn `msgInterleaved` translates to under `envAllValid`. -/
def itemInterleaved : ContentItem :=
  { role := "model",
    parts := [{ text := "th", thought := some true, thoughtSignature := "Sth" },
              { text := "a" }, { text := "b" }] }

/-- A request whose assistant turn carries an unsigned thinking block and
whose thinking directive asks for adaptive mode. -/
def reqAdaptiveUnsigned : ClaudeRequest :=
  { messages := [{ role := "assistant",
                   content := .items [{ type := "thinking", thinking := "t" }] }],
    thinking := some { type := "adaptive" },
    temperature := some 1 }

/-- A request with mode "enabled" and an explicit zero budget. -/
def reqEnabledZeroBudget : ClaudeRequest :=
  { messages := [],
    thinking := some { type := "enabled", budget_tokens := some 0 } }

/-- A tool-result block whose id has no dash. -/
def ciDashFree : ClaudeContentItem :=
  { type := "tool_result", tool_use_id := "call" }

/-- The tool-result block of the specification's id-parsing scenario. -/
def ciScenarioID : ClaudeContentItem :=
  { type := "tool_result", tool_use_id := "call-abc-123-456" }

/-- A tool-use block whose input payload is JSON `null`. -/
def ciNullInput : ClaudeContentItem :=
  { type := "tool_use", id := "i", name := "f", input := some .null }

end Claude

namespace Util

/-- The keys whose presence makes `processObjectNode` rewrite a node: the
short-circuit and conversion keywords of steps 1–7 and the keywords removed
in step 11. -/
def forbiddenNodeKeys : List String :=
  ["$ref", "const", "enum", "additionalProperties",
   "minLength", "maxLength", "exclusiveMinimum", "exclusiveMaximum",
   "pattern", "minItems", "maxItems", "format", "default", "examples",
   "allOf", "anyOf", "oneOf",
   "$schema", "$defs", "definitions", "$id", "propertyNames",
   "patternProperties", "enumTitles", "prefill"]

/-- A node on which one pass of `processObjectNode` is the identity: no
trigger keywords, no `type` array, object-typed nodes already carry non-empty
`properties` and `required`, and `required` only names existing properties. -/
def nodeQuiet (fields : Fields) : Bool :=
  forbiddenNodeKeys.all (fun k => (jget fields k).isNone) &&
  (match jget fields "type" with
   | some (.arr _) => false
   | _ => true) &&
  (match jget fields "type" with
   | some (.str t) =>
     if t == "object" then
       (match jget fields "properties" with
        | some (.obj props) => !props.isEmpty
        | _ => false) &&
       (match jget fields "required" with
        | some (.arr rs) => !rs.isEmpty
        | _ => false)
     else true
   | _ => true) &&
  (match jget fields "required", jget fields "properties" with
   | some (.arr rs), some (.obj props) =>
     rs.all (fun r =>
       match r with
       | .str s => (jget props s).isSome
       | _ => false)
   | _, _ => true)

mutual
/-- Hint-free normal forms: every object node of the tree is quiet. -/
def hintFree : JVal → Bool
  | .obj fields => nodeQuiet fields && hintFreeFields fields
  | .arr items => hintFreeItems items
  | _ => true

def hintFreeFields : List (String × JVal) → Bool
  | [] => true
  | (_, v) :: rest => hintFree v && hintFreeFields rest

def hintFreeItems : List JVal → Bool
  | [] => true
  | v :: rest => hintFree v && hintFreeItems rest
end

/-- The specification's type-array scenario with the owning object at the
schema root: `age` is typed `["integer","null"]` and required. -/
def nullableFlatInput : JVal :=
  .obj [("type", .str "object"),
        ("properties", .obj [("age", .obj [("type", .arr [.str "integer", .str "null"])])]),
        ("required", .arr [.str "age"])]

/-- What the source produces for `nullableFlatInput`: the type collapses, but
no "(nullable)" hint is added and `age` stays required. -/
def nullableFlatOutput : JVal :=
  .obj [("type", .str "object"),
        ("properties", .obj [("age", .obj [("type", .str "integer")])]),
        ("required", .arr [.str "age"])]

/-- The same scenario with the owning object nested one level down. -/
def nullableNestedInput : JVal :=
  .obj [("type", .str "object"),
        ("properties", .obj [("p",
          .obj [("type", .str "object"),
                ("properties", .obj [("age",
                   .obj [("type", .arr [.str "integer", .str "null"])])]),
                ("required", .arr [.str "age"])])]),
        ("required", .arr [.str "p"])]

/-- What the source produces for `nullableNestedInput`: `age` keeps its hint
but stays in its parent's `required`, while the unrelated root-level `p` is
stripped from the root's `required` (which then disappears). -/
def nullableNestedOutput : JVal :=
  .obj [("type", .str "object"),
        ("properties", .obj [("p",
          .obj [("type", .str "object"),
                ("properties", .obj [("age",
                   .obj [("type", .str "integer"), ("description", .str "(nullable)")])]),
                ("required", .arr [.str "age"])])])]

/-- A schema whose only property is literally named `$id` and is required. -/
def requiredCleanupInput : JVal :=
  .obj [("properties", .obj [("$id", .obj [("type", .str "string")])]),
        ("required", .arr [.str "$id"])]

/-- What the source produces for `requiredCleanupInput`: the property is
deleted from the properties container after `required` was cleaned, leaving a
`required` name with no matching property. -/
def requiredCleanupOutput : JVal :=
  .obj [("properties", .obj []), ("required", .arr [.str "$id"])]

/-- The two-member enum schema used against idempotence. -/
def enumPairValue : JVal := .obj [("enum", .arr [.str "a", .str "b"])]

/-- Its serialized text. -/
def enumPairText : String := "\x7b\"enum\":[\"a\",\"b\"]\x7d"

/-- The tree of the once-normalized enum schema. -/
def enumPairOnce : JVal :=
  .obj [("enum", .arr [.str "a", .str "b"]), ("description", .str "Allowed: a, b")]

/-- The text of the once-normalized enum schema under the stored field
order. -/
def enumPairOnceText : String :=
  "\x7b\"enum\":[\"a\",\"b\"],\"description\":\"Allowed: a, b\"\x7d"

/-- The text of the once-normalized enum schema under the reversed field
order. -/
def enumPairOnceTextRev : String :=
  "\x7b\"description\":\"Allowed: a, b\",\"enum\":[\"a\",\"b\"]\x7d"

/-- A concrete parser covering the two texts the idempotence counterexample
feeds to the normalizer. -/
def enumPairParse (s : String) : Option JVal :=
  if s == enumPairText then some enumPairValue
  else if s == enumPairOnceText then some enumPairOnce
  else none

/-- A node carrying `$ref` next to an existing description. -/
def refDescribedNode : Fields :=
  [("$ref", .str "#/$defs/Foo"), ("description", .str "previous")]

/-- An already-normal schema: object root, one string property, required. -/
def quietSample : JVal :=
  .obj [("type", .str "object"),
        ("properties", .obj [("a", .obj [("type", .str "string")])]),
        ("required", .arr [.str "a"])]

end Util

open Util Claude

/-- C1: the specification says a property typed `["T","null"]` gets a
"(nullable)" description hint and leaves its owning object's `required` list.
The code disagrees: with the owning object at the schema root the traversal
path `properties.age` fails the `.properties.` containment test, so no hint
is recorded and `age` stays required; with the owning object nested, the
recorder matches the first `properties` segment of the path and strips the
wrong name (`p`) from the wrong object (the root). -/
theorem c1_nullable_type_array_eval :
    cleanSchemaValue nullableFlatInput = nullableFlatOutput ∧
    cleanSchemaValue nullableNestedInput = nullableNestedOutput := ⟨rfl, rfl⟩

/-- C2: the specification's invariant says every final `required` name is a
key of the node's `properties`.  The code violates it: the traversal also
processes the properties container itself as a schema node, so a property
literally named `$id` is deleted by the keyword-removal step after the
parent's `required` list was cleaned, leaving `required = ["$id"]` with empty
`properties`. -/
theorem c2_required_cleanup_eval :
    cleanSchemaValue requiredCleanupInput = requiredCleanupOutput := rfl

/-- C3 counterexample: normalization is not idempotent.  Normalizing
`{"enum":["a","b"]}` appends the hint `Allowed: a, b`; normalizing the result
appends the same hint again.  The two normalized trees differ in the string
VALUE stored under `description` (not merely in key order), so every marshal
behavior serializes them to different bytes; the final conjunct exhibits one
concrete run of the text-level pipeline (stored key order on both calls)
whose second output differs from its first. -/
theorem c3_idempotence_counterexample :
    (cleanSchemaValue enumPairValue = enumPairOnce) ∧
    (cleanSchemaValue enumPairOnce
      = .obj [("enum", .arr [.str "a", .str "b"]),
              ("description", .str "Allowed: a, b (Allowed: a, b)")]) ∧
    (("Allowed: a, b" : String) ≠ "Allowed: a, b (Allowed: a, b)") ∧
    ((cleanJSONSchemaForAntigravityOptimized enumPairParse jserialize [] enumPairText).1
      = enumPairOnceText) ∧
    ((cleanJSONSchemaForAntigravityOptimized enumPairParse jserialize
        (cleanJSONSchemaForAntigravityOptimized enumPairParse jserialize [] enumPairText).2
        (cleanJSONSchemaForAntigravityOptimized enumPairParse jserialize [] enumPairText).1).1
      = "\x7b\"enum\":[\"a\",\"b\"],\"description\":\"Allowed: a, b (Allowed: a, b)\"\x7d") ∧
    (("\x7b\"enum\":[\"a\",\"b\"],\"description\":\"Allowed: a, b (Allowed: a, b)\"\x7d" : String)
      ≠ enumPairOnceText) :=
  ⟨rfl, rfl, by decide, rfl, rfl, by decide⟩

/-- C8 counterexample: for a `$ref` node with an existing description the
replacement description is `"previous (See: Foo)"` — the previous description
comes first and the `See:` hint is the parenthesized part, so the description
does not start with `"See: "` as the claim states. -/
theorem c8_ref_description_counterexample :
    (processObjectNode refDescribedNode "" []).1
      = [("type", .str "object"), ("description", .str "previous (See: Foo)")] ∧
    strStartsWith "previous (See: Foo)" "See: " = false := ⟨rfl, rfl⟩

/-- C8 amended: a node whose `$ref` value is a string is replaced wholesale by
`{type: "object", description: d}` where `d` is `"See: <name>"` (name = the
part of the reference after the last slash) when no non-empty previous
description exists, and `"<previous description> (See: <name>)"` otherwise;
no further normalization rules touch the node and nothing is recorded in the
nullable-field index. -/
theorem c8_ref_replacement_amended (fields : Fields) (path : String) (ctx : Ctx)
    (refVal : String) (h : jget fields "$ref" = some (.str refVal)) :
    processObjectNode fields path ctx =
      ([("type", .str "object"),
        ("description", .str (
          match jget fields "description" with
          | some (.str existing) =>
            if existing != "" then
              existing ++ " (" ++ ("See: " ++ (strSplit refVal "/").getLastD refVal) ++ ")"
            else "See: " ++ (strSplit refVal "/").getLastD refVal
          | _ => "See: " ++ (strSplit refVal "/").getLastD refVal))], ctx) := by
  simp only [processObjectNode, h]

/-- C8 witness: the amended replacement rule evaluated on a concrete `$ref`
node carrying a previous description. -/
theorem c8_ref_replacement_witness :
    processObjectNode refDescribedNode "p" [] =
      ([("type", .str "object"), ("description", .str "previous (See: Foo)")], []) := by
  rw [c8_ref_replacement_amended refDescribedNode "p" [] "#/$defs/Foo" rfl]
  rfl

/-- C9 counterexample: for the dash-free tool-use id `"call"` the emitted
function name is `"call"` itself, whereas stripping the trailing two
dash-delimited segments (the claim's universal rule) yields `""`. -/
theorem c9_tool_result_name_counterexample :
    (processToolResultContentV2 ciDashFree).map
        (fun p => p.functionResponse.map (fun fr => fr.name))
      = some (some "call") ∧
    String.intercalate "-" ((strSplit "call" "-").dropLast.dropLast) = "" ∧
    ("call" : String) ≠ "" :=
  ⟨rfl, rfl, by decide⟩

/-- C9 amended: for every tool-result block with a non-empty tool-use id, the
emitted function-response name is the id with its trailing two dash-delimited
segments stripped whenever the id contains at least one dash (two or more
dash-segments); a dash-free id is used unchanged. -/
theorem c9_tool_result_name_amended (ci : ClaudeContentItem) (h : ci.tool_use_id ≠ "") :
    (processToolResultContentV2 ci).map
        (fun p => p.functionResponse.map (fun fr => fr.name))
      = some (some (
          if 2 ≤ (strSplit ci.tool_use_id "-").length then
            String.intercalate "-" ((strSplit ci.tool_use_id "-").dropLast.dropLast)
          else ci.tool_use_id)) := by
  have hne : (ci.tool_use_id == "") = false := by
    simpa using h
  have hdrop : (strSplit ci.tool_use_id "-").dropLast.dropLast
      = (strSplit ci.tool_use_id "-").take ((strSplit ci.tool_use_id "-").length - 2) := by
    rw [List.dropLast_eq_take, List.dropLast_eq_take, List.length_take, List.take_take]
    congr 1
    omega
  simp only [processToolResultContentV2, hne, Bool.false_eq_true, if_false, Option.map_some']
  by_cases hlen : 2 ≤ (strSplit ci.tool_use_id "-").length
  · rw [hdrop]
    have hgt : (strSplit ci.tool_use_id "-").length > 1 := hlen
    simp [hgt, hlen]
  · have hng : ¬((strSplit ci.tool_use_id "-").length > 1) := fun hgt => hlen hgt
    simp [hng, hlen]

/-- C9 witness: the specification's scenario id `"call-abc-123-456"` yields
the function name `"call-abc"`. -/
theorem c9_tool_result_name_witness :
    (processToolResultContentV2 ciScenarioID).map
        (fun p => p.functionResponse.map (fun fr => fr.name))
      = some (some "call-abc") := by
  rw [c9_tool_result_name_amended ciScenarioID (by decide)]
  rfl

/-- C10 counterexample: a tool-use block whose input payload is JSON `null`
is neither a JSON object nor a string, yet the translator emits a
function-call part for it (unmarshaling `null` into a Go map succeeds as a
no-op). -/
theorem c10_tool_use_null_counterexample :
    processToolUseContentV2 envNoneValid ciNullInput "" =
      some { thoughtSignature := skipSentinel,
             functionCall := some { id := "i", name := "f", args := .null } } ∧
    (processToolUseContentV2 envNoneValid ciNullInput "").isSome = true :=
  ⟨rfl, rfl⟩

/-- C10 amended: a tool-use block emits no function-call part exactly when its
input payload is absent, or is neither a JSON object nor JSON `null` nor a
string that parses to a JSON object or `null` (JSON `null`, directly or
string-encoded, passes the map-unmarshal check and emits a call with null
args). -/
theorem c10_tool_use_reject_amended (env : TransEnv) (ci : ClaudeContentItem) (sig : String) :
    processToolUseContentV2 env ci sig = none ↔
      toolUseInputRejected env.parseJson ci.input = true := by
  cases hi : ci.input with
  | none => simp [processToolUseContentV2, toolUseInputRejected, hi]
  | some raw =>
    cases raw <;> simp [processToolUseContentV2, toolUseInputRejected, hi]
    case str s =>
      cases hp : env.parseJson s with
      | none => simp
      | some v => cases v <;> simp

/-- C5 counterexample: an unsigned thinking block raises the
thinking-translation-disabled flag, and a thinking directive of mode
"adaptive" then produces no thinkingConfig at all (the claim says the
adaptive mapping still fires with a fixed high level). -/
theorem c5_adaptive_suppressed_counterexample :
    (processMessages envNoneValid "m" reqAdaptiveUnsigned.messages).2 = false ∧
    outputThinkingConfig
        (convertClaudeRequestToAntigravityV2 envNoneValid "m" reqAdaptiveUnsigned)
      = none :=
  ⟨rfl, rfl⟩

/-- C5 amended: once the thinking-translation-disabled flag is raised during
content-block processing, neither the budget-based ("enabled") mapping nor
the adaptive mapping produces a thinkingConfig — both are gated on the same
flag. -/
theorem c5_thinking_disabled_amended (env : TransEnv) (mn : String) (req : ClaudeRequest)
    (h : (processMessages env mn req.messages).2 = false) :
    outputThinkingConfig (convertClaudeRequestToAntigravityV2 env mn req) = none := by
  simp only [convertClaudeRequestToAntigravityV2, outputThinkingConfig, h]
  cases req.thinking <;> simp

/-- C5 witness: the amended suppression evaluated on a request carrying both
an unsigned thinking block and an adaptive directive (with a temperature so a
generation config still exists). -/
theorem c5_thinking_disabled_witness :
    outputThinkingConfig
        (convertClaudeRequestToAntigravityV2 envNoneValid "m" reqAdaptiveUnsigned)
      = none :=
  c5_thinking_disabled_amended envNoneValid "m" reqAdaptiveUnsigned rfl

/-- C6: with thought translation still enabled, a thinking directive of mode
"enabled" with explicit budget `b` maps to a thinkingConfig with
`thinkingBudget = b` and `includeThoughts = (b ≠ 0)`: false exactly when the
budget is zero, true otherwise (including negative dynamic budgets). -/
theorem c6_enabled_budget_mapping (env : TransEnv) (mn : String) (req : ClaudeRequest)
    (th : ClaudeThinking) (b : Int)
    (hth : req.thinking = some th) (htype : th.type = "enabled")
    (hb : th.budget_tokens = some b)
    (hen : (processMessages env mn req.messages).2 = true) :
    outputThinkingConfig (convertClaudeRequestToAntigravityV2 env mn req)
      = some { thinkingBudget := some b, thinkingLevel := "", includeThoughts := b != 0 } := by
  simp [convertClaudeRequestToAntigravityV2, outputThinkingConfig, hth, htype, hb, hen]

/-- C6 witness: budget 0 maps to `thinkingBudget = 0` with
`includeThoughts = false`. -/
theorem c6_enabled_budget_mapping_witness :
    outputThinkingConfig
        (convertClaudeRequestToAntigravityV2 envNoneValid "m" reqEnabledZeroBudget)
      = some { thinkingBudget := some 0, thinkingLevel := "", includeThoughts := false } := by
  rw [c6_enabled_budget_mapping envNoneValid "m" reqEnabledZeroBudget
    { type := "enabled", budget_tokens := some 0 } 0 rfl rfl rfl rfl]
  rfl

lemma thoughtSeq_append (l1 l2 : List (Part × Bool)) :
    thoughtSeq (l1 ++ l2) = thoughtSeq l1 ++ thoughtSeq l2 := by
  simp [thoughtSeq]

lemma otherSeq_append (l1 l2 : List (Part × Bool)) :
    otherSeq (l1 ++ l2) = otherSeq l1 ++ otherSeq l2 := by
  simp [otherSeq]

lemma chronStep_append (env : TransEnv) (mn : String) :
    ∀ (blocks : List ClaudeContentItem) (s : String) (e : Bool) (l : List (Part × Bool)),
    blocks.foldl (chronStep env mn) (s, e, l)
      = ((blocks.foldl (chronStep env mn) (s, e, [])).1,
         (blocks.foldl (chronStep env mn) (s, e, [])).2.1,
         l ++ (blocks.foldl (chronStep env mn) (s, e, [])).2.2)
  | [], s, e, l => by simp
  | ci :: rest, s, e, l => by
    simp only [List.foldl_cons]
    rcases hb : blockResult env mn s e ci with ⟨opt, s', e'⟩
    cases opt with
    | none =>
      simp only [chronStep, hb]
      exact chronStep_append env mn rest s' e' l
    | some pb =>
      simp only [chronStep, hb, List.nil_append]
      rw [chronStep_append env mn rest s' e' (l ++ [pb]),
          chronStep_append env mn rest s' e' [pb]]
      simp [List.append_assoc]

lemma processContentList_partition (env : TransEnv) (mn : String) :
    ∀ (blocks : List ClaudeContentItem) (s : String) (e : Bool) (tp op cp : List Part),
    blocks.foldl (processContentItem env mn "model") ⟨s, e, tp, op, cp⟩
      = ⟨(blocks.foldl (chronStep env mn) (s, e, [])).1,
         (blocks.foldl (chronStep env mn) (s, e, [])).2.1,
         tp ++ thoughtSeq (blocks.foldl (chronStep env mn) (s, e, [])).2.2,
         op ++ otherSeq (blocks.foldl (chronStep env mn) (s, e, [])).2.2,
         cp⟩
  | [], s, e, tp, op, cp => by simp [thoughtSeq, otherSeq]
  | ci :: rest, s, e, tp, op, cp => by
    simp only [List.foldl_cons]
    rcases hb : blockResult env mn s e ci with ⟨opt, s', e'⟩
    cases opt with
    | none =>
      simp only [processContentItem, chronStep, hb]
      exact processContentList_partition env mn rest s' e' tp op cp
    | some pb =>
      rcases pb with ⟨p, tag⟩
      cases tag with
      | true =>
        simp only [processContentItem, chronStep, hb, List.nil_append,
          String.reduceBEq, reduceIte]
        rw [processContentList_partition env mn rest s' e' (tp ++ [p]) op cp,
            chronStep_append env mn rest s' e' [(p, true)]]
        simp [thoughtSeq_append, otherSeq_append, List.append_assoc, thoughtSeq, otherSeq]
      | false =>
        simp only [processContentItem, chronStep, hb, List.nil_append,
          String.reduceBEq, reduceIte, Bool.false_eq_true, if_false]
        rw [processContentList_partition env mn rest s' e' tp (op ++ [p]) cp,
            chronStep_append env mn rest s' e' [(p, false)]]
        simp [thoughtSeq_append, otherSeq_append, List.append_assoc, thoughtSeq, otherSeq]

/-- C4: a source assistant message (emitted as a "model" turn) with content
blocks in any interleaving produces a part list that is exactly the parts
emitted by thinking blocks, in their original relative order, followed by the
parts emitted by all other blocks, in their original relative order
(`chronParts` is the chronological emission of the same block dispatch). -/
theorem c4_model_turn_ordering (env : TransEnv) (mn : String) (msg : ClaudeMessage)
    (blocks : List ClaudeContentItem) (en : Bool) (item : ContentItem)
    (hrole : msg.role = "assistant") (hcontent : msg.content = .items blocks)
    (hitem : (convertMessage env mn msg en).1 = some item) :
    item.parts = thoughtSeq (chronParts env mn blocks en)
      ++ otherSeq (chronParts env mn blocks en) := by
  unfold convertMessage at hitem
  rw [hcontent, hrole] at hitem
  simp only [String.reduceBEq, reduceIte, processContentList] at hitem
  rw [processContentList_partition env mn blocks "" en [] [] []] at hitem
  simp only [List.nil_append, chronParts] at hitem ⊢
  split at hitem
  · cases hitem
    simp
  · exact absurd hitem (by simp)

/-- C4 witness: the interleaved [text, thinking, text] assistant message is
reordered to [thought, text, text]. -/
theorem c4_model_turn_ordering_witness :
    (convertMessage envAllValid "m" msgInterleaved true).1 = some itemInterleaved ∧
    itemInterleaved.parts
      = [{ text := "th", thought := some true, thoughtSignature := "Sth" },
         { text := "a" }, { text := "b" }] := by
  constructor
  · rfl
  · rw [c4_model_turn_ordering envAllValid "m" msgInterleaved blocksInterleaved true
      itemInterleaved rfl rfl rfl]
    rfl

lemma cacheGet_cacheStore_self : ∀ (c : SchemaCacheM) (k v : String),
    cacheGet (cacheStore c k v) k = some v
  | [], k, v => by simp [cacheStore, cacheGet]
  | (k', w) :: rest, k, v => by
    simp only [cacheStore]
    split
    · rename_i hk
      simp [cacheGet, hk]
    · rename_i hk
      simp only [cacheGet]
      rw [if_neg hk]
      exact cacheGet_cacheStore_self rest k v

lemma cacheGet_cacheSet_self (c : SchemaCacheM) (k v : String) :
    cacheGet (cacheSet c k v) k = some v := by
  unfold cacheSet
  split
  · exact cacheGet_cacheStore_self _ k v
  · exact cacheGet_cacheStore_self c k v

/-- C7 counterexample: with the cache cleared between the two calls, the
second call re-marshals a freshly built Go map, and sonic's randomized map
key order may differ from the first call's.  Concretely: the first call
(stored key order) and the cleared-cache second call (reversed key order, an
order a real call can emit) serialize the same normalized tree to different
byte strings, refuting byte-identity of the claim's cleared-cache leg. -/
theorem c7_cache_clear_counterexample :
    ((cleanJSONSchemaForAntigravityOptimized enumPairParse jserialize [] enumPairText).1
      = enumPairOnceText) ∧
    ((cleanJSONSchemaForAntigravityOptimized enumPairParse jserializeRev
        (clearSchemaCache
          (cleanJSONSchemaForAntigravityOptimized enumPairParse jserialize [] enumPairText).2)
        enumPairText).1
      = enumPairOnceTextRev) ∧
    (jserialize (cleanSchemaValue enumPairValue) = enumPairOnceText) ∧
    (jserializeRev (cleanSchemaValue enumPairValue) = enumPairOnceTextRev) ∧
    (enumPairOnceTextRev ≠ enumPairOnceText) :=
  ⟨rfl, rfl, rfl, rfl, by decide⟩

/-- C7 amended: starting from a cache state that has not yet cached the text
S (with S parseable), (i) calling the normalizer twice WITHOUT clearing is
byte-identical — the second call returns the cached bytes, whatever marshal
order it would have used; and (ii) the first call's result and the
cleared-cache recomputation are the serializations, under each call's own
marshal order, of the SAME normalized value tree: cache misses are
independently recomputable to the same value, but byte identity after a
clear holds only when the two randomized key orders happen to coincide. -/
theorem c7_cache_value_amended (parse : String → Option JVal)
    (marshalA marshalB : JVal → String) (c : SchemaCacheM) (s : String) (t : JVal)
    (hparse : parse s = some t) (hmiss : cacheGet c (computeHash s) = none) :
    ((cleanJSONSchemaForAntigravityOptimized parse marshalB
        (cleanJSONSchemaForAntigravityOptimized parse marshalA c s).2 s).1
      = (cleanJSONSchemaForAntigravityOptimized parse marshalA c s).1) ∧
    ((cleanJSONSchemaForAntigravityOptimized parse marshalA c s).1
      = marshalA (cleanSchemaValue t)) ∧
    ((cleanJSONSchemaForAntigravityOptimized parse marshalB
        (clearSchemaCache (cleanJSONSchemaForAntigravityOptimized parse marshalA c s).2) s).1
      = marshalB (cleanSchemaValue t)) := by
  have hfirst : cleanJSONSchemaForAntigravityOptimized parse marshalA c s
      = (marshalA (cleanSchemaValue t),
         cacheSet c (computeHash s) (marshalA (cleanSchemaValue t))) := by
    simp [cleanJSONSchemaForAntigravityOptimized, hmiss, hparse]
  refine ⟨?_, ?_, ?_⟩
  · rw [hfirst]
    simp [cleanJSONSchemaForAntigravityOptimized, cacheGet_cacheSet_self]
  · rw [hfirst]
  · rw [hfirst]
    simp [cleanJSONSchemaForAntigravityOptimized, clearSchemaCache, cacheGet, hparse]

/-- C7 witness: the amended statement evaluated on the enum schema text with
the empty cache, stored order on the first call and reversed order on the
second. -/
theorem c7_cache_value_witness :
    ((cleanJSONSchemaForAntigravityOptimized enumPairParse jserializeRev
        (cleanJSONSchemaForAntigravityOptimized enumPairParse jserialize [] enumPairText).2
        enumPairText).1
      = (cleanJSONSchemaForAntigravityOptimized enumPairParse jserialize [] enumPairText).1) ∧
    ((cleanJSONSchemaForAntigravityOptimized enumPairParse jserialize [] enumPairText).1
      = jserialize (cleanSchemaValue enumPairValue)) ∧
    ((cleanJSONSchemaForAntigravityOptimized enumPairParse jserializeRev
        (clearSchemaCache
          (cleanJSONSchemaForAntigravityOptimized enumPairParse jserialize [] enumPairText).2)
        enumPairText).1
      = jserializeRev (cleanSchemaValue enumPairValue)) :=
  c7_cache_value_amended enumPairParse jserialize jserializeRev [] enumPairText
    enumPairValue rfl rfl

lemma jget_none_jdel : ∀ (fields : Fields) (key : String),
    jget fields key = none → jdel fields key = fields
  | [], _, _ => rfl
  | (k, v) :: rest, key, h => by
    simp only [jget] at h
    split at h
    · exact absurd h (by simp)
    · rename_i hk
      simp only [jdel]
      rw [jget_none_jdel rest key h, if_neg hk]

lemma foldl_id_of_step_id {β : Type} (step : Fields → β → Fields) :
    ∀ (l : List β) (a : Fields), (∀ b ∈ l, step a b = a) → l.foldl step a = a
  | [], a, _ => rfl
  | b :: bs, a, h => by
    simp only [List.foldl_cons, h b (List.mem_cons_self b bs)]
    exact foldl_id_of_step_id step bs a (fun x hx => h x (List.mem_cons_of_mem b hx))

lemma demote_id (fields : Fields) (key : String) (h : jget fields key = none) :
    demoteUnsupportedKey fields key = fields := by
  simp [demoteUnsupportedKey, h]

lemma flattenStep_id (fields : Fields) (key : String) (h : jget fields key = none) :
    flattenUnionStep fields key = fields := by
  simp [flattenUnionStep, h]

lemma nodeQuiet_parts (fields : Fields) (h : nodeQuiet fields = true) :
    (∀ k ∈ forbiddenNodeKeys, jget fields k = none) ∧
    ((match jget fields "type" with
      | some (.arr _) => false
      | _ => true) = true) ∧
    ((match jget fields "type" with
      | some (.str t) =>
        if t == "object" then
          (match jget fields "properties" with
           | some (.obj props) => !props.isEmpty
           | _ => false) &&
          (match jget fields "required" with
           | some (.arr rs) => !rs.isEmpty
           | _ => false)
        else true
      | _ => true) = true) ∧
    ((match jget fields "required", jget fields "properties" with
      | some (.arr rs), some (.obj props) =>
        rs.all (fun r =>
          match r with
          | .str s => (jget props s).isSome
          | _ => false)
      | _, _ => true) = true) := by
  unfold nodeQuiet at h
  simp only [Bool.and_eq_true, List.all_eq_true] at h
  obtain ⟨⟨⟨h1, h2⟩, h3⟩, h4⟩ := h
  exact ⟨fun k hk => Option.isNone_iff_eq_none.mp (h1 k hk), h2, h3, h4⟩

lemma cleanupRequired_id (fields : Fields)
    (h : (match jget fields "required", jget fields "properties" with
          | some (.arr rs), some (.obj props) =>
            rs.all (fun r =>
              match r with
              | .str s => (jget props s).isSome
              | _ => false)
          | _, _ => true) = true) :
    cleanupRequiredInPlace fields = fields := by
  unfold cleanupRequiredInPlace
  split
  · rename_i reqArr props heq1 heq2
    rw [heq1, heq2] at h
    have hfilter : reqArr.filter (fun r =>
        match r with
        | .str s => (jget props s).isSome
        | _ => false) = reqArr :=
      List.filter_eq_self.mpr (List.all_eq_true.mp h)
    simp [hfilter]
  · rfl

lemma handleEmptyObjectSchema_id (fields : Fields) (path : String)
    (hp : (match jget fields "properties" with
           | some (.obj props) => !props.isEmpty
           | _ => false) = true)
    (hr : (match jget fields "required" with
           | some (.arr rs) => !rs.isEmpty
           | _ => false) = true) :
    handleEmptyObjectSchema fields path = fields := by
  unfold handleEmptyObjectSchema
  split at hp
  · rename_i props hprops
    split at hr
    · rename_i rs hrs
      simp only [hprops, hrs]
      simp only [Bool.not_eq_eq_eq_not, Bool.not_true] at hp hr
      simp [hp, hr]
    · exact absurd hr (by simp)
  · exact absurd hp (by simp)

set_option maxHeartbeats 2000000 in
lemma unsupported_sub_forbidden : ∀ k ∈ unsupportedKeys, k ∈ forbiddenNodeKeys := by
  decide

set_option maxHeartbeats 1000000 in
lemma unions_sub_forbidden : ∀ k ∈ (["anyOf", "oneOf"] : List String), k ∈ forbiddenNodeKeys := by
  decide

set_option maxHeartbeats 2000000 in
lemma removeKeys_sub_forbidden : ∀ k ∈ removeKeys, k ∈ forbiddenNodeKeys := by
  decide

set_option maxHeartbeats 2000000 in
lemma processObjectNodeRest_id (fields : Fields) (path : String) (ctx : Ctx)
    (h : nodeQuiet fields = true) :
    processObjectNodeRest fields path ctx = (fields, ctx) := by
  obtain ⟨hkeys, htype2, htype3, hreq4⟩ := nodeQuiet_parts fields h
  have hconst := hkeys "const" (by decide)
  have henum := hkeys "enum" (by decide)
  have haddp := hkeys "additionalProperties" (by decide)
  have hallof := hkeys "allOf" (by decide)
  have hfold5 : unsupportedKeys.foldl demoteUnsupportedKey fields = fields :=
    foldl_id_of_step_id demoteUnsupportedKey unsupportedKeys fields
      (fun k hk => demote_id fields k (hkeys k (unsupported_sub_forbidden k hk)))
  have hfold7 : (["anyOf", "oneOf"] : List String).foldl flattenUnionStep fields = fields :=
    foldl_id_of_step_id flattenUnionStep _ fields
      (fun k hk => flattenStep_id fields k (hkeys k (unions_sub_forbidden k hk)))
  have hfold11 : removeKeys.foldl jdel fields = fields :=
    foldl_id_of_step_id jdel removeKeys fields
      (fun k hk => jget_none_jdel fields k (hkeys k (removeKeys_sub_forbidden k hk)))
  have hclean := cleanupRequired_id fields hreq4
  unfold processObjectNodeRest
  simp only [hconst, henum, haddp, hallof, hfold5, hfold7]
  cases htype : jget fields "type" with
  | none => simp [htype, hclean, hfold11]
  | some v =>
    cases v with
    | arr l =>
      rw [htype] at htype2
      simp at htype2
    | str t =>
      rw [htype] at htype3
      by_cases hobj : (t == "object") = true
      · simp only [hobj, reduceIte, Bool.and_eq_true] at htype3
        have hempty := handleEmptyObjectSchema_id fields path htype3.1 htype3.2
        simp [htype, hobj, hempty, hclean, hfold11]
      · simp [htype, hobj, hclean, hfold11]
    | null => simp [htype, hclean, hfold11]
    | bool b => simp [htype, hclean, hfold11]
    | num n => simp [htype, hclean, hfold11]
    | obj o => simp [htype, hclean, hfold11]

lemma processObjectNode_id (fields : Fields) (path : String) (ctx : Ctx)
    (h : nodeQuiet fields = true) :
    processObjectNode fields path ctx = (fields, ctx) := by
  have href := (nodeQuiet_parts fields h).1 "$ref" (by decide)
  unfold processObjectNode
  rw [href]
  exact processObjectNodeRest_id fields path ctx h

lemma cleanGoFieldsWith_id (fuel : Nat)
    (ih : ∀ (v : JVal) (path : String) (ctx : Ctx),
      hintFree v = true → cleanGo fuel v path ctx = (v, ctx)) :
    ∀ (fs : Fields) (path : String) (ctx : Ctx), hintFreeFields fs = true →
      cleanGoFieldsWith (fun v p c => cleanGo fuel v p c) path fs ctx = (fs, ctx)
  | [], _, _, _ => rfl
  | (k, v) :: rest, path, ctx, h => by
    simp only [hintFreeFields, Bool.and_eq_true] at h
    simp only [cleanGoFieldsWith, ih v (buildPath path k) ctx h.1,
      cleanGoFieldsWith_id fuel ih rest path ctx h.2]

lemma cleanGoItemsWith_id (fuel : Nat)
    (ih : ∀ (v : JVal) (path : String) (ctx : Ctx),
      hintFree v = true → cleanGo fuel v path ctx = (v, ctx)) :
    ∀ (i : Nat) (items : List JVal) (path : String) (ctx : Ctx), hintFreeItems items = true →
      cleanGoItemsWith (fun v p c => cleanGo fuel v p c) path i items ctx = (items, ctx)
  | _, [], _, _, _ => rfl
  | i, v :: rest, path, ctx, h => by
    simp only [hintFreeItems, Bool.and_eq_true] at h
    simp only [cleanGoItemsWith, ih v (path ++ "[" ++ toString i ++ "]") ctx h.1,
      cleanGoItemsWith_id fuel ih (i + 1) rest path ctx h.2]

lemma cleanGo_id : ∀ (fuel : Nat) (t : JVal) (path : String) (ctx : Ctx),
    hintFree t = true → cleanGo fuel t path ctx = (t, ctx)
  | 0, _, _, _, _ => rfl
  | fuel+1, t, path, ctx, h => by
    cases t with
    | obj fields =>
      simp only [hintFree, Bool.and_eq_true] at h
      simp only [cleanGo, processObjectNode_id fields path ctx h.1,
        cleanGoFieldsWith_id fuel (fun v p c hv => cleanGo_id fuel v p c hv)
          fields path ctx h.2]
    | arr items =>
      simp only [hintFree] at h
      simp only [cleanGo,
        cleanGoItemsWith_id fuel (fun v p c hv => cleanGo_id fuel v p c hv)
          0 items path ctx h]
    | null => rfl
    | bool b => rfl
    | num n => rfl
    | str s => rfl

lemma cleanSchemaValue_id (t : JVal) (h : hintFree t = true) : cleanSchemaValue t = t := by
  unfold cleanSchemaValue
  rw [cleanGo_id (jdepth t + 4) t "" [] h]
  cases t <;> rfl

/-- C3 amended: normalization is not idempotent in general (re-normalizing
re-appends description hints, see the counterexample).  At the value level,
re-normalization is the identity on every normalized tree in hint-free
normal form: no rewrite-triggering keywords (`$ref`, `const`, `enum`,
`additionalProperties`, the demoted scalar keywords, `allOf`,
`anyOf`/`oneOf`, the unconditionally removed keywords), no `type` arrays,
every object-typed node keeping non-empty `properties` and `required`, and
every `required` list naming only existing properties.  Byte-identical text
is not asserted even then: the program re-marshals a fresh Go map whose
randomized key order may differ between the two calls. -/
theorem c3_idempotence_amended (t : JVal)
    (hfree : hintFree (cleanSchemaValue t) = true) :
    cleanSchemaValue (cleanSchemaValue t) = cleanSchemaValue t :=
  cleanSchemaValue_id (cleanSchemaValue t) hfree

/-- C3 witness: the already-normal object schema with one required string
property re-normalizes to the identical value tree. -/
theorem c3_idempotence_witness :
    cleanSchemaValue (cleanSchemaValue quietSample) = cleanSchemaValue quietSample :=
  c3_idempotence_amended quietSample rfl
